import Mathlib

/-!
Verification of the detection-to-track association engine of
`3d/json_plus_track.py` (the merge of BoT-SORT tracker output into
RTMPose keypoint JSON).

Shallow embedding conventions:
* Python floats are modelled as rationals (`ℚ`): every operation the code
  performs (max, min, +, -, *, /, **2, comparisons) is exact rational
  arithmetic on the inputs the claims are about.
* A JSON detection instance is a record with its `bbox` field (`Option`,
  since the key may be absent, and a list since its length is checked),
  an opaque attribute payload `attrs : α` standing for every other key
  (keypoints, scores, ...), and the mutable `track_id` field.
* The BoT-SORT per-frame dictionary `frames` with `frames.get(fid, [])`
  lookup is modelled as a total function `Int → List TrackCandidate`.
* A raw CSV field is `Option ℚ`: `some q` when Python's `float(field)`
  succeeds, `none` when it raises `ValueError`.  A fatal load error is an
  `Except.error`.
* The Python `for` loops of `assign_track_ids` become structural
  recursions that thread the `used` index set and the `stats` counters
  exactly as the code mutates them.
-/

/-- Axis-aligned box `(x1, y1, x2, y2)`, the `bbox_xyxy` tuples of the code. -/
abbrev Rect : Type := ℚ × ℚ × ℚ × ℚ

/-- One element of a per-frame BoT-SORT candidate list: the dict
`{"track_id": tid, "bbox_xyxy": (x, y, x+w, y+h)}` built by `load_botsort`. -/
structure TrackCandidate where
  track_id : Int
  bbox_xyxy : Rect
deriving DecidableEq

/-- Default candidate used only to give `List.getD` a value at indices that
are proved in range. -/
def d0 : TrackCandidate := ⟨0, (0, 0, 0, 0)⟩

/-- One entry of a frame's `instances` list: the checked `bbox` key, the
opaque rest of the JSON object (`attrs`), and the injected `track_id`. -/
structure DetectionInstance (α : Type) where
  bbox : Option (List ℚ)
  attrs : α
  track_id : Option Int
deriving DecidableEq

/-- One entry of the keypoint JSON list: `{"frame_id": ..., "instances": [...]}`. -/
structure FrameEntry (α : Type) where
  frame_id : Int
  instances : List (DetectionInstance α)
deriving DecidableEq

/-- The `stats` dictionary of `assign_track_ids`. -/
structure Stats where
  matched_iou : ℕ
  matched_center : ℕ
  no_candidate : ℕ
deriving DecidableEq

/-- Sum of the three counters. -/
def Stats.total (s : Stats) : ℕ := s.matched_iou + s.matched_center + s.no_candidate

/-- Embedding of `iou_xyxy(a, b)`. -/
def iou_xyxy (a b : Rect) : ℚ :=
  let (ax1, ay1, ax2, ay2) := a
  let (bx1, by1, bx2, by2) := b
  let inter_x1 := max ax1 bx1
  let inter_y1 := max ay1 by1
  let inter_x2 := min ax2 bx2
  let inter_y2 := min ay2 by2
  let inter_w := max 0 (inter_x2 - inter_x1)
  let inter_h := max 0 (inter_y2 - inter_y1)
  let inter := inter_w * inter_h
  let area_a := max 0 (ax2 - ax1) * max 0 (ay2 - ay1)
  let area_b := max 0 (bx2 - bx1) * max 0 (by2 - by1)
  let denom := area_a + area_b - inter
  if denom > 0 then inter / denom else 0

/-- Embedding of `center_xyxy(b)`. -/
def center_xyxy (b : Rect) : ℚ × ℚ :=
  let (x1, y1, x2, y2) := b
  ((1/2) * (x1 + x2), (1/2) * (y1 + y2))

/-- Python's `int(float(...))` truncation toward zero on an exact rational. -/
def pyInt (q : ℚ) : Int := if q < 0 then ⌈q⌉ else ⌊q⌋

/-- Parse one CSV row of at least six fields, as `load_botsort` does:
`float` each of positions 0-5 (a `none` field is a `ValueError`), convert
`(x, y, w, h)` to `(x, y, x+w, y+h)` and truncate `frame` and `id` to int.
Returns the `(frame, candidate)` pair that the code appends to
`frames[frame]`. -/
def parseRow (row : List (Option ℚ)) : Except String (Int × TrackCandidate) :=
  match row with
  | some fr :: some tid :: some x :: some y :: some w :: some h :: _ =>
      .ok (pyInt fr, { track_id := pyInt tid, bbox_xyxy := (x, y, x + w, y + h) })
  | _ => .error "FormatError"

/-- Embedding of the loop of `load_botsort`: rows with fewer than six fields
are skipped (`continue`); any other row is parsed, a non-numeric field in
positions 0-5 aborting the whole load.  The result is the ordered list of
`(frame, candidate)` records; `botFrames` below recovers the per-frame
dictionary view. -/
def load_botsort : List (List (Option ℚ)) → Except String (List (Int × TrackCandidate))
  | [] => .ok []
  | row :: rest =>
      if row.length < 6 then load_botsort rest
      else
        match parseRow row with
        | .ok r => Except.map (fun l => r :: l) (load_botsort rest)
        | .error e => .error e

/-- The dictionary view of the loaded records: `frames.get(fid, [])`, the
per-frame lists keeping the original relative record order
(`setdefault(...).append`). -/
def botFrames (records : List (Int × TrackCandidate)) : Int → List TrackCandidate :=
  fun fid => (records.filter (fun r => r.1 = fid)).map (fun r => r.2)

/-- The `bb = tuple(map(float, bbox))` conversion; only applied to lists
whose length was checked to be 4. -/
def toRect : List ℚ → Rect
  | [a, b, c, d] => (a, b, c, d)
  | _ => (0, 0, 0, 0)

/-- The phase-1 loop of `assign_track_ids`:
`for idx, d in enumerate(dets): if idx in used: continue; iou = ...;
if iou > best_iou: best_iou, best_idx = iou, idx`, with accumulator
`(best_iou, best_idx)` starting from `(-1.0, -1)` and `idx` counting from
`hi`. -/
def phase1Go (bb : Rect) (used : Finset ℕ) :
    List TrackCandidate → ℕ → ℚ × Int → ℚ × Int
  | [], _, acc => acc
  | d :: rest, hi, acc =>
      phase1Go bb used rest (hi + 1)
        (if hi ∈ used then acc
         else if iou_xyxy bb d.bbox_xyxy > acc.1 then (iou_xyxy bb d.bbox_xyxy, (hi : Int))
         else acc)

/-- Phase-1 stable argmax over the whole candidate list. -/
def phase1 (bb : Rect) (dets : List TrackCandidate) (used : Finset ℕ) : ℚ × Int :=
  phase1Go bb used dets 0 (-1, -1)

/-- The phase-2 loop of `assign_track_ids`: squared center distances, the
accumulator `(best_d2, best_idx2)` starting from `(float("inf"), -1)`;
infinity is modelled as `⊤ : WithTop ℚ`. -/
def phase2Go (c : ℚ × ℚ) (used : Finset ℕ) :
    List TrackCandidate → ℕ → WithTop ℚ × Int → WithTop ℚ × Int
  | [], _, acc => acc
  | d :: rest, hi, acc =>
      phase2Go c used rest (hi + 1)
        (if hi ∈ used then acc
         else
           let dc := center_xyxy d.bbox_xyxy
           let d2 : ℚ := (c.1 - dc.1) ^ 2 + (c.2 - dc.2) ^ 2
           if (d2 : WithTop ℚ) < acc.1 then ((d2 : WithTop ℚ), (hi : Int)) else acc)

/-- Phase-2 stable argmin over the whole candidate list. -/
def phase2 (c : ℚ × ℚ) (dets : List TrackCandidate) (used : Finset ℕ) : WithTop ℚ × Int :=
  phase2Go c used dets 0 (⊤, -1)

/-- The body of the inner `for inst in instances` loop of
`assign_track_ids`: given the current `used` set and `stats`, produce the
updated instance (its `track_id` written), the updated `used` set and the
updated `stats`.  Mirrors the source branch for branch:
missing/short/long `bbox` or empty `dets` resolve to the sentinel;
otherwise phase 1 assigns when `best_idx != -1 and best_iou >= max(0.0,
min_iou)`; otherwise the optional centroid fallback; otherwise the
sentinel. -/
def stepInst {α : Type} (min_iou : ℚ) (use_center_fallback : Bool)
    (dets : List TrackCandidate) (used : Finset ℕ) (stats : Stats)
    (inst : DetectionInstance α) : DetectionInstance α × Finset ℕ × Stats :=
  match inst.bbox with
  | none =>
      ({ inst with track_id := some (-1) }, used,
       { stats with no_candidate := stats.no_candidate + 1 })
  | some bbox =>
      if bbox.length ≠ 4 ∨ dets = [] then
        ({ inst with track_id := some (-1) }, used,
         { stats with no_candidate := stats.no_candidate + 1 })
      else
        let bb := toRect bbox
        let p1 := phase1 bb dets used
        if p1.2 ≠ -1 ∧ p1.1 ≥ max 0 min_iou then
          ({ inst with track_id := some (dets.getD p1.2.toNat d0).track_id },
           insert p1.2.toNat used,
           { stats with matched_iou := stats.matched_iou + 1 })
        else if use_center_fallback ∧ dets ≠ [] then
          let c := center_xyxy bb
          let p2 := phase2 c dets used
          if p2.2 ≠ -1 then
            ({ inst with track_id := some (dets.getD p2.2.toNat d0).track_id },
             insert p2.2.toNat used,
             { stats with matched_center := stats.matched_center + 1 })
          else
            ({ inst with track_id := some (-1) }, used,
             { stats with no_candidate := stats.no_candidate + 1 })
        else
          ({ inst with track_id := some (-1) }, used,
           { stats with no_candidate := stats.no_candidate + 1 })

/-- The inner loop over one frame's `instances`, threading `used` and
`stats` and collecting the updated instances in order. -/
def processInsts {α : Type} (min_iou : ℚ) (use_center_fallback : Bool)
    (dets : List TrackCandidate) :
    List (DetectionInstance α) → Finset ℕ → Stats →
      List (DetectionInstance α) × Finset ℕ × Stats
  | [], used, stats => ([], used, stats)
  | inst :: rest, used, stats =>
      let r := stepInst min_iou use_center_fallback dets used stats inst
      let q := processInsts min_iou use_center_fallback dets rest r.2.1 r.2.2
      (r.1 :: q.1, q.2.1, q.2.2)

/-- The outer loop over `kp_frames`: per frame the candidates are looked up
by `frame_id` (absent frame = empty list, via the total function model),
`used` starts empty, and `stats` accumulates across frames. -/
def processFrames {α : Type} (bot : Int → List TrackCandidate)
    (min_iou : ℚ) (use_center_fallback : Bool) :
    List (FrameEntry α) → Stats → List (FrameEntry α) × Stats
  | [], stats => ([], stats)
  | e :: rest, stats =>
      let r := processInsts min_iou use_center_fallback (bot e.frame_id) e.instances ∅ stats
      let q := processFrames bot min_iou use_center_fallback rest r.2.2
      ({ e with instances := r.1 } :: q.1, q.2)

/-- Embedding of `assign_track_ids(kp_frames, botsort_frames, min_iou,
use_center_fallback)`: returns the augmented frame list together with the
final `stats` (the Python function mutates `kp_frames` in place and
returns `stats`). -/
def assign_track_ids {α : Type} (kp_frames : List (FrameEntry α))
    (bot : Int → List TrackCandidate) (min_iou : ℚ)
    (use_center_fallback : Bool) : List (FrameEntry α) × Stats :=
  processFrames bot min_iou use_center_fallback kp_frames ⟨0, 0, 0⟩

/-- Total number of detection instances in a collection. -/
def totalInstances {α : Type} (kp : List (FrameEntry α)) : ℕ :=
  (kp.map (fun e => e.instances.length)).sum

/-- The non-negative assigned track ids of a frame's instances, in order. -/
def nonnegIds {α : Type} (l : List (DetectionInstance α)) : List Int :=
  l.filterMap (fun i => (i.track_id).bind (fun t => if 0 ≤ t then some t else none))

/-- Forget the `track_id` field of every instance of a frame entry:
what must be preserved by the merge. -/
def stripTid {α : Type} (e : FrameEntry α) : FrameEntry α :=
  { e with instances := e.instances.map (fun i => { i with track_id := none }) }

/-- IoU of the detection box against the candidate at index `k`. -/
def iouAt (bb : Rect) (dets : List TrackCandidate) (k : ℕ) : ℚ :=
  iou_xyxy bb (dets.getD k d0).bbox_xyxy

/-- Squared center distance from center `c` to the candidate at index `k`. -/
def d2At (c : ℚ × ℚ) (dets : List TrackCandidate) (k : ℕ) : ℚ :=
  let dc := center_xyxy (dets.getD k d0).bbox_xyxy
  (c.1 - dc.1) ^ 2 + (c.2 - dc.2) ^ 2

/-! Basic facts about `iou_xyxy`. -/

/-- Unfolded, tuple-level form of `iou_xyxy`. -/
lemma iou_xyxy_def (ax1 ay1 ax2 ay2 bx1 by1 bx2 by2 : ℚ) :
    iou_xyxy (ax1, ay1, ax2, ay2) (bx1, by1, bx2, by2) =
      if max 0 (ax2 - ax1) * max 0 (ay2 - ay1) + max 0 (bx2 - bx1) * max 0 (by2 - by1)
           - max 0 (min ax2 bx2 - max ax1 bx1) * max 0 (min ay2 by2 - max ay1 by1) > 0
      then (max 0 (min ax2 bx2 - max ax1 bx1) * max 0 (min ay2 by2 - max ay1 by1)) /
           (max 0 (ax2 - ax1) * max 0 (ay2 - ay1) + max 0 (bx2 - bx1) * max 0 (by2 - by1)
             - max 0 (min ax2 bx2 - max ax1 bx1) * max 0 (min ay2 by2 - max ay1 by1))
      else 0 := rfl

/-- The IoU value is never negative. -/
lemma iou_xyxy_nonneg (a b : Rect) : 0 ≤ iou_xyxy a b := by
  obtain ⟨ax1, ay1, ax2, ay2⟩ := a
  obtain ⟨bx1, by1, bx2, by2⟩ := b
  rw [iou_xyxy_def]
  split
  · exact div_nonneg (mul_nonneg (le_max_left _ _) (le_max_left _ _))
      (le_of_lt (by assumption))
  · exact le_refl 0

/-- IoU of a box with itself is 1 when the box has positive area. -/
lemma iou_self_eq_one (x1 y1 x2 y2 : ℚ) (hx : x1 < x2) (hy : y1 < y2) :
    iou_xyxy (x1, y1, x2, y2) (x1, y1, x2, y2) = 1 := by
  rw [iou_xyxy_def]
  simp only [min_self, max_self]
  rw [max_eq_right (by linarith : (0:ℚ) ≤ x2 - x1),
    max_eq_right (by linarith : (0:ℚ) ≤ y2 - y1)]
  have hA : (0:ℚ) < (x2 - x1) * (y2 - y1) := mul_pos (by linarith) (by linarith)
  rw [show (x2 - x1) * (y2 - y1) + (x2 - x1) * (y2 - y1) - (x2 - x1) * (y2 - y1)
      = (x2 - x1) * (y2 - y1) from by ring]
  rw [if_pos hA, div_self (ne_of_gt hA)]

/-- IoU is 0 whenever the intersection is empty in one of the two axes. -/
lemma iou_disjoint_eq_zero (ax1 ay1 ax2 ay2 bx1 by1 bx2 by2 : ℚ)
    (h : min ax2 bx2 ≤ max ax1 bx1 ∨ min ay2 by2 ≤ max ay1 by1) :
    iou_xyxy (ax1, ay1, ax2, ay2) (bx1, by1, bx2, by2) = 0 := by
  rw [iou_xyxy_def]
  rcases h with h | h
  · rw [max_eq_left (by linarith : min ax2 bx2 - max ax1 bx1 ≤ 0), zero_mul]
    split <;> simp
  · rw [max_eq_left (by linarith : min ay2 by2 - max ay1 by1 ≤ 0), mul_zero]
    split <;> simp

/-- IoU against a degenerate (zero or negative width/height) box is 0,
in both argument orders. -/
lemma iou_degenerate_eq_zero (ax1 ay1 ax2 ay2 bx1 by1 bx2 by2 : ℚ)
    (h : ax2 ≤ ax1 ∨ ay2 ≤ ay1) :
    iou_xyxy (ax1, ay1, ax2, ay2) (bx1, by1, bx2, by2) = 0 ∧
    iou_xyxy (bx1, by1, bx2, by2) (ax1, ay1, ax2, ay2) = 0 := by
  rcases h with h | h
  · constructor
    · exact iou_disjoint_eq_zero _ _ _ _ _ _ _ _
        (Or.inl (le_trans (min_le_left _ _) (le_trans h (le_max_left _ _))))
    · exact iou_disjoint_eq_zero _ _ _ _ _ _ _ _
        (Or.inl (le_trans (min_le_right _ _) (le_trans h (le_max_right _ _))))
  · constructor
    · exact iou_disjoint_eq_zero _ _ _ _ _ _ _ _
        (Or.inr (le_trans (min_le_left _ _) (le_trans h (le_max_left _ _))))
    · exact iou_disjoint_eq_zero _ _ _ _ _ _ _ _
        (Or.inr (le_trans (min_le_right _ _) (le_trans h (le_max_right _ _))))

/-- When the computed union area is not positive the function returns 0
(the `else` branch) instead of dividing. -/
lemma iou_denom_nonpos_eq_zero (ax1 ay1 ax2 ay2 bx1 by1 bx2 by2 : ℚ)
    (h : max 0 (ax2 - ax1) * max 0 (ay2 - ay1) + max 0 (bx2 - bx1) * max 0 (by2 - by1)
        - max 0 (min ax2 bx2 - max ax1 bx1) * max 0 (min ay2 by2 - max ay1 by1) ≤ 0) :
    iou_xyxy (ax1, ay1, ax2, ay2) (bx1, by1, bx2, by2) = 0 := by
  rw [iou_xyxy_def, if_neg (not_lt.mpr h)]

/-! The phase-1 loop invariant: a stable (first-wins) argmax. -/

/-- `List.getD` at an in-range index. -/
lemma getD_of_lt (l : List TrackCandidate) (k : ℕ) (h : k < l.length) :
    l.getD k d0 = l[k] := by
  simp [List.getD_eq_getElem?_getD, List.getElem?_eq_getElem h]

/-- Invariant of the phase-1 loop after the indices `< hi` have been
scanned: either nothing unconsumed was seen and the accumulator still
holds the initial `(-1.0, -1)`, or the accumulator holds the IoU and
index of the first-encountered maximal unconsumed candidate so far. -/
def P1Inv (bb : Rect) (dets : List TrackCandidate) (used : Finset ℕ) (hi : ℕ)
    (acc : ℚ × Int) : Prop :=
  (acc = (-1, -1) ∧ ∀ k, k < hi → k ∈ used)
  ∨ ∃ j : ℕ, j < dets.length ∧ j ∉ used ∧ acc.1 = iouAt bb dets j ∧ acc.2 = (j : Int)
      ∧ (∀ k, k < hi → k < dets.length → k ∉ used → iouAt bb dets k ≤ acc.1)
      ∧ (∀ k, k < j → k ∉ used → iouAt bb dets k < acc.1)

/-- The phase-1 loop preserves `P1Inv` and ends at `hi = dets.length`. -/
lemma phase1Go_inv (bb : Rect) (dets : List TrackCandidate) (used : Finset ℕ) :
    ∀ (rest : List TrackCandidate) (hi : ℕ) (acc : ℚ × Int),
      rest = dets.drop hi → P1Inv bb dets used hi acc →
      P1Inv bb dets used dets.length (phase1Go bb used rest hi acc) := by
  intro rest
  induction rest with
  | nil =>
    intro hi acc hdrop hinv
    have hle : dets.length ≤ hi := List.drop_eq_nil_iff.mp hdrop.symm
    rw [phase1Go]
    rcases hinv with ⟨hacc, hall⟩ | ⟨j, hj1, hj2, hj3, hj4, hj5, hj6⟩
    · exact Or.inl ⟨hacc, fun k hk => hall k (lt_of_lt_of_le hk hle)⟩
    · exact Or.inr ⟨j, hj1, hj2, hj3, hj4,
        fun k hk hk2 hk3 => hj5 k (lt_of_lt_of_le hk hle) hk2 hk3, hj6⟩
  | cons d rest ih =>
    intro hi acc hdrop hinv
    have hlt : hi < dets.length := by
      by_contra hc
      rw [List.drop_eq_nil_iff.mpr (by omega)] at hdrop
      exact List.cons_ne_nil d rest hdrop
    rw [List.drop_eq_getElem_cons hlt] at hdrop
    obtain ⟨hd, hrest⟩ : d = dets[hi] ∧ rest = dets.drop (hi + 1) := by
      constructor
      · exact (List.cons.injEq _ _ _ _ ▸ hdrop).1
      · exact (List.cons.injEq _ _ _ _ ▸ hdrop).2
    rw [phase1Go]
    apply ih (hi + 1) _ hrest
    have hgAt : iou_xyxy bb d.bbox_xyxy = iouAt bb dets hi := by
      rw [hd, iouAt, getD_of_lt dets hi hlt]
    by_cases hu : hi ∈ used
    · rw [if_pos hu]
      rcases hinv with ⟨hacc, hall⟩ | ⟨j, hj1, hj2, hj3, hj4, hj5, hj6⟩
      · refine Or.inl ⟨hacc, fun k hk => ?_⟩
        rcases Nat.lt_succ_iff_lt_or_eq.mp hk with h | h
        · exact hall k h
        · exact h ▸ hu
      · refine Or.inr ⟨j, hj1, hj2, hj3, hj4, fun k hk hk2 hk3 => ?_, hj6⟩
        rcases Nat.lt_succ_iff_lt_or_eq.mp hk with h | h
        · exact hj5 k h hk2 hk3
        · exact absurd (h ▸ hu) hk3
    · rw [if_neg hu]
      by_cases hgt : iou_xyxy bb d.bbox_xyxy > acc.1
      · rw [if_pos hgt]
        have hub : ∀ k, k < hi → k ∉ used → iouAt bb dets k < iou_xyxy bb d.bbox_xyxy := by
          intro k hk hk3
          rcases hinv with ⟨hacc, hall⟩ | ⟨j, hj1, hj2, hj3, hj4, hj5, hj6⟩
          · exact absurd (hall k hk) hk3
          · exact lt_of_le_of_lt (hj5 k hk (lt_trans hk hlt) hk3) hgt
        refine Or.inr ⟨hi, hlt, hu, ?_, ?_, ?_, ?_⟩
        · exact hgAt
        · rfl
        · intro k hk hk2 hk3
          show iouAt bb dets k ≤ iou_xyxy bb d.bbox_xyxy
          rcases Nat.lt_succ_iff_lt_or_eq.mp hk with h | h
          · exact le_of_lt (hub k h hk3)
          · rw [h, ← hgAt]
        · intro k hk hk3
          show iouAt bb dets k < iou_xyxy bb d.bbox_xyxy
          exact hub k hk hk3
      · rw [if_neg hgt]
        rcases hinv with ⟨hacc, hall⟩ | ⟨j, hj1, hj2, hj3, hj4, hj5, hj6⟩
        · exfalso
          have h0 : (0:ℚ) ≤ iou_xyxy bb d.bbox_xyxy := iou_xyxy_nonneg _ _
          rw [hacc] at hgt
          exact hgt (by norm_num at h0 ⊢; linarith)
        · refine Or.inr ⟨j, hj1, hj2, hj3, hj4, fun k hk hk2 hk3 => ?_, hj6⟩
          rcases Nat.lt_succ_iff_lt_or_eq.mp hk with h | h
          · exact hj5 k h hk2 hk3
          · rw [h, ← hgAt]; exact not_lt.mp hgt

/-- The phase-1 result satisfies the invariant at the end of the scan. -/
lemma phase1_spec (bb : Rect) (dets : List TrackCandidate) (used : Finset ℕ) :
    P1Inv bb dets used dets.length (phase1 bb dets used) :=
  phase1Go_inv bb dets used dets 0 (-1, -1) (by simp)
    (Or.inl ⟨rfl, fun k hk => absurd hk (Nat.not_lt_zero k)⟩)

/-- Phase 1 reports `-1` exactly when every candidate index is consumed. -/
lemma phase1_neg_iff (bb : Rect) (dets : List TrackCandidate) (used : Finset ℕ) :
    (phase1 bb dets used).2 = -1 ↔ ∀ k, k < dets.length → k ∈ used := by
  constructor
  · intro h
    rcases phase1_spec bb dets used with ⟨_, hall⟩ | ⟨j, _, _, _, hj4, _, _⟩
    · exact hall
    · rw [hj4] at h; omega
  · intro hall
    rcases phase1_spec bb dets used with ⟨hacc, _⟩ | ⟨j, hj1, hj2, _, _, _, _⟩
    · rw [hacc]
    · exact absurd (hall j hj1) hj2
/-- When some unconsumed candidate index exists, phase 1 returns the
first-encountered candidate of maximal IoU. -/
lemma phase1_pos (bb : Rect) (dets : List TrackCandidate) (used : Finset ℕ)
    (k0 : ℕ) (hk0 : k0 < dets.length) (hku : k0 ∉ used) :
    ∃ j : ℕ, j < dets.length ∧ j ∉ used ∧ (phase1 bb dets used).1 = iouAt bb dets j
      ∧ (phase1 bb dets used).2 = (j : Int)
      ∧ (∀ k, k < dets.length → k ∉ used → iouAt bb dets k ≤ (phase1 bb dets used).1)
      ∧ (∀ k, k < j → k ∉ used → iouAt bb dets k < (phase1 bb dets used).1) := by
  rcases phase1_spec bb dets used with ⟨_, hall⟩ | ⟨j, hj1, hj2, hj3, hj4, hj5, hj6⟩
  · exact absurd (hall k0 hk0) hku
  · exact ⟨j, hj1, hj2, hj3, hj4, fun k hk hk2 => hj5 k hk hk hk2, hj6⟩

/-! The phase-2 loop invariant: a stable (first-wins) argmin. -/

/-- Invariant of the phase-2 loop after the indices `< hi` have been
scanned: either nothing unconsumed was seen and the accumulator still
holds `(inf, -1)`, or it holds the distance and index of the
first-encountered minimal unconsumed candidate so far. -/
def P2Inv (c : ℚ × ℚ) (dets : List TrackCandidate) (used : Finset ℕ) (hi : ℕ)
    (acc : WithTop ℚ × Int) : Prop :=
  (acc = (⊤, -1) ∧ ∀ k, k < hi → k ∈ used)
  ∨ ∃ j : ℕ, j < dets.length ∧ j ∉ used ∧ acc.1 = (d2At c dets j : ℚ) ∧ acc.2 = (j : Int)
      ∧ (∀ k, k < hi → k < dets.length → k ∉ used → d2At c dets j ≤ d2At c dets k)
      ∧ (∀ k, k < j → k ∉ used → d2At c dets j < d2At c dets k)

/-- The phase-2 loop preserves `P2Inv` and ends at `hi = dets.length`. -/
lemma phase2Go_inv (c : ℚ × ℚ) (dets : List TrackCandidate) (used : Finset ℕ) :
    ∀ (rest : List TrackCandidate) (hi : ℕ) (acc : WithTop ℚ × Int),
      rest = dets.drop hi → P2Inv c dets used hi acc →
      P2Inv c dets used dets.length (phase2Go c used rest hi acc) := by
  intro rest
  induction rest with
  | nil =>
    intro hi acc hdrop hinv
    have hle : dets.length ≤ hi := List.drop_eq_nil_iff.mp hdrop.symm
    rw [phase2Go]
    rcases hinv with ⟨hacc, hall⟩ | ⟨j, hj1, hj2, hj3, hj4, hj5, hj6⟩
    · exact Or.inl ⟨hacc, fun k hk => hall k (lt_of_lt_of_le hk hle)⟩
    · exact Or.inr ⟨j, hj1, hj2, hj3, hj4,
        fun k hk hk2 hk3 => hj5 k (lt_of_lt_of_le hk hle) hk2 hk3, hj6⟩
  | cons d rest ih =>
    intro hi acc hdrop hinv
    have hlt : hi < dets.length := by
      by_contra hc
      rw [List.drop_eq_nil_iff.mpr (by omega)] at hdrop
      exact List.cons_ne_nil d rest hdrop
    rw [List.drop_eq_getElem_cons hlt] at hdrop
    obtain ⟨hd, hrest⟩ : d = dets[hi] ∧ rest = dets.drop (hi + 1) := by
      constructor
      · exact (List.cons.injEq _ _ _ _ ▸ hdrop).1
      · exact (List.cons.injEq _ _ _ _ ▸ hdrop).2
    rw [phase2Go]
    apply ih (hi + 1) _ hrest
    have hgAt : (c.1 - (center_xyxy d.bbox_xyxy).1) ^ 2 + (c.2 - (center_xyxy d.bbox_xyxy).2) ^ 2
        = d2At c dets hi := by
      rw [hd, d2At, getD_of_lt dets hi hlt]
    by_cases hu : hi ∈ used
    · rw [if_pos hu]
      rcases hinv with ⟨hacc, hall⟩ | ⟨j, hj1, hj2, hj3, hj4, hj5, hj6⟩
      · refine Or.inl ⟨hacc, fun k hk => ?_⟩
        rcases Nat.lt_succ_iff_lt_or_eq.mp hk with h | h
        · exact hall k h
        · exact h ▸ hu
      · refine Or.inr ⟨j, hj1, hj2, hj3, hj4, fun k hk hk2 hk3 => ?_, hj6⟩
        rcases Nat.lt_succ_iff_lt_or_eq.mp hk with h | h
        · exact hj5 k h hk2 hk3
        · exact absurd (h ▸ hu) hk3
    · rw [if_neg hu]
      dsimp only
      rw [hgAt]
      by_cases hcmp : (d2At c dets hi : WithTop ℚ) < acc.1
      · rw [if_pos hcmp]
        have hub : ∀ k, k < hi → k ∉ used → d2At c dets hi < d2At c dets k := by
          intro k hk hk3
          rcases hinv with ⟨hacc, hall⟩ | ⟨j, hj1, hj2, hj3, hj4, hj5, hj6⟩
          · exact absurd (hall k hk) hk3
          · have h1 : d2At c dets hi < d2At c dets j := by
              rw [hj3] at hcmp
              exact_mod_cast hcmp
            exact lt_of_lt_of_le h1 (hj5 k hk (lt_trans hk hlt) hk3)
        refine Or.inr ⟨hi, hlt, hu, ?_, ?_, ?_, ?_⟩
        · rfl
        · rfl
        · intro k hk hk2 hk3
          rcases Nat.lt_succ_iff_lt_or_eq.mp hk with h | h
          · exact le_of_lt (hub k h hk3)
          · rw [h]
        · intro k hk hk3
          exact hub k hk hk3
      · rw [if_neg hcmp]
        rcases hinv with ⟨hacc, hall⟩ | ⟨j, hj1, hj2, hj3, hj4, hj5, hj6⟩
        · exact absurd (hacc ▸ WithTop.coe_lt_top (d2At c dets hi) :
            (d2At c dets hi : WithTop ℚ) < acc.1) hcmp
        · refine Or.inr ⟨j, hj1, hj2, hj3, hj4, fun k hk hk2 hk3 => ?_, hj6⟩
          rcases Nat.lt_succ_iff_lt_or_eq.mp hk with h | h
          · exact hj5 k h hk2 hk3
          · rw [h]
            have := not_lt.mp hcmp
            rw [hj3] at this
            exact_mod_cast this

/-- The phase-2 result satisfies the invariant at the end of the scan. -/
lemma phase2_spec (c : ℚ × ℚ) (dets : List TrackCandidate) (used : Finset ℕ) :
    P2Inv c dets used dets.length (phase2 c dets used) :=
  phase2Go_inv c dets used dets 0 (⊤, -1) (by simp)
    (Or.inl ⟨rfl, fun k hk => absurd hk (Nat.not_lt_zero k)⟩)

/-- Phase 2 reports `-1` exactly when every candidate index is consumed. -/
lemma phase2_neg_iff (c : ℚ × ℚ) (dets : List TrackCandidate) (used : Finset ℕ) :
    (phase2 c dets used).2 = -1 ↔ ∀ k, k < dets.length → k ∈ used := by
  constructor
  · intro h
    rcases phase2_spec c dets used with ⟨_, hall⟩ | ⟨j, _, _, _, hj4, _, _⟩
    · exact hall
    · rw [hj4] at h; omega
  · intro hall
    rcases phase2_spec c dets used with ⟨hacc, _⟩ | ⟨j, hj1, hj2, _, _, _, _⟩
    · rw [hacc]
    · exact absurd (hall j hj1) hj2

/-- When some unconsumed candidate index exists, phase 2 returns the
first-encountered candidate of minimal squared center distance. -/
lemma phase2_pos (c : ℚ × ℚ) (dets : List TrackCandidate) (used : Finset ℕ)
    (k0 : ℕ) (hk0 : k0 < dets.length) (hku : k0 ∉ used) :
    ∃ j : ℕ, j < dets.length ∧ j ∉ used ∧ (phase2 c dets used).1 = (d2At c dets j : ℚ)
      ∧ (phase2 c dets used).2 = (j : Int)
      ∧ (∀ k, k < dets.length → k ∉ used → d2At c dets j ≤ d2At c dets k)
      ∧ (∀ k, k < j → k ∉ used → d2At c dets j < d2At c dets k) := by
  rcases phase2_spec c dets used with ⟨_, hall⟩ | ⟨j, hj1, hj2, hj3, hj4, hj5, hj6⟩
  · exact absurd (hall k0 hk0) hku
  · exact ⟨j, hj1, hj2, hj3, hj4, fun k hk hk2 => hj5 k hk hk hk2, hj6⟩

/-! Branch characterization of one detection step. -/

/-- Under a usable bbox and a nonempty candidate list, `stepInst` is the
phase-1 / phase-2 / sentinel decision chain of the source. -/
lemma stepInst_good {α : Type} (m : ℚ) (u : Bool) (dets : List TrackCandidate)
    (used : Finset ℕ) (stats : Stats) (inst : DetectionInstance α) (l : List ℚ)
    (hb : inst.bbox = some l) (hl : l.length = 4) (hd : dets ≠ []) :
    stepInst m u dets used stats inst =
      if (phase1 (toRect l) dets used).2 ≠ -1 ∧ (phase1 (toRect l) dets used).1 ≥ max 0 m then
        ({ inst with
            track_id := some ((dets.getD (phase1 (toRect l) dets used).2.toNat d0).track_id) },
         insert (phase1 (toRect l) dets used).2.toNat used,
         { stats with matched_iou := stats.matched_iou + 1 })
      else if u ∧ dets ≠ [] then
        if (phase2 (center_xyxy (toRect l)) dets used).2 ≠ -1 then
          ({ inst with
              track_id :=
                some ((dets.getD (phase2 (center_xyxy (toRect l)) dets used).2.toNat d0).track_id) },
           insert (phase2 (center_xyxy (toRect l)) dets used).2.toNat used,
           { stats with matched_center := stats.matched_center + 1 })
        else
          ({ inst with track_id := some (-1) }, used,
           { stats with no_candidate := stats.no_candidate + 1 })
      else
        ({ inst with track_id := some (-1) }, used,
         { stats with no_candidate := stats.no_candidate + 1 }) := by
  simp only [stepInst, hb]
  rw [if_neg (by simp [hl, hd])]

/-- The three possible outcomes of one detection step: sentinel with `used`
untouched, or assignment of a fresh candidate index via phase 1 or phase 2. -/
lemma stepInst_main {α : Type} (m : ℚ) (u : Bool) (dets : List TrackCandidate)
    (used : Finset ℕ) (stats : Stats) (inst : DetectionInstance α) :
    stepInst m u dets used stats inst =
        ({ inst with track_id := some (-1) }, used,
         { stats with no_candidate := stats.no_candidate + 1 })
    ∨ ∃ j : ℕ, j < dets.length ∧ j ∉ used ∧
        (stepInst m u dets used stats inst =
            ({ inst with track_id := some ((dets.getD j d0).track_id) }, insert j used,
             { stats with matched_iou := stats.matched_iou + 1 })
         ∨ stepInst m u dets used stats inst =
            ({ inst with track_id := some ((dets.getD j d0).track_id) }, insert j used,
             { stats with matched_center := stats.matched_center + 1 })) := by
  cases hb : inst.bbox with
  | none => exact Or.inl (by simp [stepInst, hb])
  | some l =>
    by_cases hl : l.length = 4
    · by_cases hd : dets = []
      · exact Or.inl (by simp [stepInst, hb, hd])
      · rw [stepInst_good m u dets used stats inst l hb hl hd]
        by_cases hp1 : (phase1 (toRect l) dets used).2 ≠ -1 ∧
            (phase1 (toRect l) dets used).1 ≥ max 0 m
        · rw [if_pos hp1]
          rcases phase1_spec (toRect l) dets used with ⟨hacc, _⟩ | ⟨j, hj1, hj2, _, hj4, _, _⟩
          · exact absurd (congrArg Prod.snd hacc) hp1.1
          · refine Or.inr ⟨j, hj1, hj2, Or.inl ?_⟩
            rw [hj4, Int.toNat_ofNat, hb]
        · rw [if_neg hp1]
          by_cases hu2 : (u : Prop) ∧ dets ≠ []
          · rw [if_pos hu2]
            by_cases hp2 : (phase2 (center_xyxy (toRect l)) dets used).2 ≠ -1
            · rw [if_pos hp2]
              rcases phase2_spec (center_xyxy (toRect l)) dets used with
                ⟨hacc, _⟩ | ⟨j, hj1, hj2, _, hj4, _, _⟩
              · exact absurd (congrArg Prod.snd hacc) hp2
              · refine Or.inr ⟨j, hj1, hj2, Or.inr ?_⟩
                rw [hj4, Int.toNat_ofNat, hb]
            · rw [if_neg hp2]
              refine Or.inl ?_
              rw [hb]
          · rw [if_neg hu2]
            refine Or.inl ?_
            rw [hb]
    · refine Or.inl ?_
      simp only [stepInst, hb]
      rw [if_pos (Or.inl hl)]

/-- One detection step increments the counter total by exactly one. -/
lemma stepInst_total {α : Type} (m : ℚ) (u : Bool) (dets : List TrackCandidate)
    (used : Finset ℕ) (stats : Stats) (inst : DetectionInstance α) :
    ((stepInst m u dets used stats inst).2.2).total = stats.total + 1 := by
  rcases stepInst_main m u dets used stats inst with h | ⟨j, _, _, h | h⟩ <;>
    rw [h] <;> simp [Stats.total] <;> omega

/-- One detection step only writes `track_id` on the instance. -/
lemma stepInst_strip {α : Type} (m : ℚ) (u : Bool) (dets : List TrackCandidate)
    (used : Finset ℕ) (stats : Stats) (inst : DetectionInstance α) :
    { (stepInst m u dets used stats inst).1 with track_id := none } =
      { inst with track_id := none } := by
  rcases stepInst_main m u dets used stats inst with h | ⟨j, _, _, h | h⟩ <;> rw [h]

/-- The consumed-index set only grows. -/
lemma stepInst_subset {α : Type} (m : ℚ) (u : Bool) (dets : List TrackCandidate)
    (used : Finset ℕ) (stats : Stats) (inst : DetectionInstance α) :
    used ⊆ (stepInst m u dets used stats inst).2.1 := by
  rcases stepInst_main m u dets used stats inst with h | ⟨j, _, _, h | h⟩ <;> rw [h] <;>
    exact Finset.subset_insert j used

/-- With the fallback disabled, a step never touches `matched_center`. -/
lemma stepInst_center_const {α : Type} (m : ℚ) (dets : List TrackCandidate)
    (used : Finset ℕ) (stats : Stats) (inst : DetectionInstance α) :
    (stepInst m false dets used stats inst).2.2.matched_center = stats.matched_center := by
  cases hb : inst.bbox with
  | none => simp [stepInst, hb]
  | some l =>
    by_cases hl : l.length = 4
    · by_cases hd : dets = []
      · simp [stepInst, hb, hd]
      · rw [stepInst_good m false dets used stats inst l hb hl hd]
        split
        · rfl
        · rw [if_neg (by simp)]
    · simp only [stepInst, hb]
      rw [if_pos (Or.inl hl)]

/-! Lifting the per-step facts through the two loops. -/

/-- The inner loop adds exactly the number of processed instances to the
counter total. -/
lemma processInsts_total {α : Type} (m : ℚ) (u : Bool) (dets : List TrackCandidate) :
    ∀ (insts : List (DetectionInstance α)) (used : Finset ℕ) (stats : Stats),
      ((processInsts m u dets insts used stats).2.2).total = stats.total + insts.length := by
  intro insts
  induction insts with
  | nil => intro used stats; rfl
  | cons inst rest ih =>
    intro used stats
    have h1 := stepInst_total m u dets used stats inst
    have h2 := ih (stepInst m u dets used stats inst).2.1 (stepInst m u dets used stats inst).2.2
    simp only [processInsts]
    rw [h2, h1, List.length_cons]
    omega

/-- The outer loop adds the total instance count to the counter total. -/
lemma processFrames_total {α : Type} (bot : Int → List TrackCandidate) (m : ℚ) (u : Bool) :
    ∀ (kp : List (FrameEntry α)) (stats : Stats),
      ((processFrames bot m u kp stats).2).total = stats.total + totalInstances kp := by
  intro kp
  induction kp with
  | nil => intro stats; simp [processFrames, totalInstances]
  | cons e rest ih =>
    intro stats
    simp only [processFrames]
    rw [ih, processInsts_total]
    simp only [totalInstances, List.map_cons, List.sum_cons]
    omega

/-- The inner loop only writes `track_id` fields. -/
lemma processInsts_strip {α : Type} (m : ℚ) (u : Bool) (dets : List TrackCandidate) :
    ∀ (insts : List (DetectionInstance α)) (used : Finset ℕ) (stats : Stats),
      (processInsts m u dets insts used stats).1.map (fun i => { i with track_id := none })
        = insts.map (fun i => { i with track_id := none }) := by
  intro insts
  induction insts with
  | nil => intro used stats; rfl
  | cons inst rest ih =>
    intro used stats
    simp only [processInsts, List.map_cons]
    rw [ih, stepInst_strip]

/-- With the fallback disabled the inner loop never touches `matched_center`. -/
lemma processInsts_center_const {α : Type} (m : ℚ) (dets : List TrackCandidate) :
    ∀ (insts : List (DetectionInstance α)) (used : Finset ℕ) (stats : Stats),
      (processInsts m false dets insts used stats).2.2.matched_center = stats.matched_center := by
  intro insts
  induction insts with
  | nil => intro used stats; rfl
  | cons inst rest ih =>
    intro used stats
    simp only [processInsts]
    rw [ih, stepInst_center_const]

/-- With the fallback disabled the whole run never touches `matched_center`. -/
lemma processFrames_center_const {α : Type} (bot : Int → List TrackCandidate) (m : ℚ) :
    ∀ (kp : List (FrameEntry α)) (stats : Stats),
      (processFrames bot m false kp stats).2.matched_center = stats.matched_center := by
  intro kp
  induction kp with
  | nil => intro stats; rfl
  | cons e rest ih =>
    intro stats
    simp only [processFrames]
    rw [ih, processInsts_center_const]

/-! Uniqueness of assigned non-negative ids (when the candidate list
itself has pairwise-distinct ids). -/

/-- Distinct in-range indices of a list with `Nodup` mapped ids carry
different ids. -/
lemma nodup_map_getD_ne {l : List TrackCandidate}
    (h : (l.map TrackCandidate.track_id).Nodup) {i j : ℕ}
    (hi : i < l.length) (hj : j < l.length) (hij : i ≠ j) :
    (l.getD i d0).track_id ≠ (l.getD j d0).track_id := by
  rw [getD_of_lt l i hi, getD_of_lt l j hj]
  intro heq
  have hinj := List.nodup_iff_injective_get.mp h
  have hi' : i < (l.map TrackCandidate.track_id).length := by simpa using hi
  have hj' : j < (l.map TrackCandidate.track_id).length := by simpa using hj
  have h1 : (l.map TrackCandidate.track_id).get ⟨i, hi'⟩ =
      (l.map TrackCandidate.track_id).get ⟨j, hj'⟩ := by
    rw [List.get_map, List.get_map]
    simpa using heq
  have h2 := hinj h1
  rw [Fin.mk.injEq] at h2
  exact hij h2

/-- The consumed-index set grows along the inner loop. -/
lemma processInsts_subset {α : Type} (m : ℚ) (u : Bool) (dets : List TrackCandidate) :
    ∀ (insts : List (DetectionInstance α)) (used : Finset ℕ) (stats : Stats),
      used ⊆ (processInsts m u dets insts used stats).2.1 := by
  intro insts
  induction insts with
  | nil => intro used stats; exact Finset.Subset.refl used
  | cons inst rest ih =>
    intro used stats
    simp only [processInsts]
    exact subset_trans (stepInst_subset m u dets used stats inst)
      (ih (stepInst m u dets used stats inst).2.1 (stepInst m u dets used stats inst).2.2)

/-- Inner-loop invariant for id uniqueness: with pairwise-distinct candidate
ids, the non-negative ids written by the loop are pairwise distinct, and
each one is the id of a candidate index consumed during this very loop. -/
lemma processInsts_nodup {α : Type} (m : ℚ) (u : Bool) (dets : List TrackCandidate)
    (hdets : (dets.map TrackCandidate.track_id).Nodup) :
    ∀ (insts : List (DetectionInstance α)) (used : Finset ℕ) (stats : Stats),
      (nonnegIds (processInsts m u dets insts used stats).1).Nodup
      ∧ ∀ t ∈ nonnegIds (processInsts m u dets insts used stats).1,
          ∃ k, k ∈ (processInsts m u dets insts used stats).2.1 ∧ k ∉ used ∧ k < dets.length
              ∧ (dets.getD k d0).track_id = t := by
  intro insts
  induction insts with
  | nil =>
    intro used stats
    refine ⟨List.nodup_nil, fun t ht => absurd ht ?_⟩
    simp [processInsts, nonnegIds]
  | cons inst rest ih =>
    intro used stats
    simp only [processInsts]
    rcases stepInst_main m u dets used stats inst with h | ⟨j, hjlen, hjused, h | h⟩
    · rw [h]
      obtain ⟨ih1, ih2⟩ := ih used { stats with no_candidate := stats.no_candidate + 1 }
      constructor
      · simpa [nonnegIds, List.filterMap_cons] using ih1
      · intro t ht
        rw [show nonnegIds ({ inst with track_id := some (-1) } ::
            (processInsts m u dets rest used
              { stats with no_candidate := stats.no_candidate + 1 }).1) =
            nonnegIds (processInsts m u dets rest used
              { stats with no_candidate := stats.no_candidate + 1 }).1 from by
          simp [nonnegIds, List.filterMap_cons]] at ht
        exact ih2 t ht
    · rw [h]
      obtain ⟨ih1, ih2⟩ := ih (insert j used) { stats with matched_iou := stats.matched_iou + 1 }
      have hsub := processInsts_subset m u dets rest (insert j used)
        { stats with matched_iou := stats.matched_iou + 1 }
      by_cases ht0 : (0:Int) ≤ (dets.getD j d0).track_id
      · have hcons : nonnegIds ({ inst with track_id := some ((dets.getD j d0).track_id) } ::
            (processInsts m u dets rest (insert j used)
              { stats with matched_iou := stats.matched_iou + 1 }).1) =
            (dets.getD j d0).track_id :: nonnegIds (processInsts m u dets rest (insert j used)
              { stats with matched_iou := stats.matched_iou + 1 }).1 := by
          simp only [nonnegIds, List.filterMap_cons, Option.some_bind]
          rw [if_pos ht0]
        rw [hcons]
        constructor
        · refine List.Nodup.cons (fun hmem => ?_) ih1
          obtain ⟨k, hk1, hk2, hk3, hk4⟩ := ih2 _ hmem
          have hkj : j ≠ k := fun he => hk2 (he ▸ Finset.mem_insert_self j used)
          exact nodup_map_getD_ne hdets hjlen hk3 hkj hk4.symm
        · intro t ht
          rcases List.mem_cons.mp ht with ht | ht
          · exact ⟨j, hsub (Finset.mem_insert_self j used), hjused, hjlen, ht.symm⟩
          · obtain ⟨k, hk1, hk2, hk3, hk4⟩ := ih2 t ht
            exact ⟨k, hk1, fun hk => hk2 (Finset.mem_insert_of_mem hk), hk3, hk4⟩
      · have hcons : nonnegIds ({ inst with track_id := some ((dets.getD j d0).track_id) } ::
            (processInsts m u dets rest (insert j used)
              { stats with matched_iou := stats.matched_iou + 1 }).1) =
            nonnegIds (processInsts m u dets rest (insert j used)
              { stats with matched_iou := stats.matched_iou + 1 }).1 := by
          simp only [nonnegIds, List.filterMap_cons, Option.some_bind]
          rw [if_neg ht0]
        rw [hcons]
        refine ⟨ih1, fun t ht => ?_⟩
        obtain ⟨k, hk1, hk2, hk3, hk4⟩ := ih2 t ht
        exact ⟨k, hk1, fun hk => hk2 (Finset.mem_insert_of_mem hk), hk3, hk4⟩
    · rw [h]
      obtain ⟨ih1, ih2⟩ := ih (insert j used) { stats with matched_center := stats.matched_center + 1 }
      have hsub := processInsts_subset m u dets rest (insert j used)
        { stats with matched_center := stats.matched_center + 1 }
      by_cases ht0 : (0:Int) ≤ (dets.getD j d0).track_id
      · have hcons : nonnegIds ({ inst with track_id := some ((dets.getD j d0).track_id) } ::
            (processInsts m u dets rest (insert j used)
              { stats with matched_center := stats.matched_center + 1 }).1) =
            (dets.getD j d0).track_id :: nonnegIds (processInsts m u dets rest (insert j used)
              { stats with matched_center := stats.matched_center + 1 }).1 := by
          simp only [nonnegIds, List.filterMap_cons, Option.some_bind]
          rw [if_pos ht0]
        rw [hcons]
        constructor
        · refine List.Nodup.cons (fun hmem => ?_) ih1
          obtain ⟨k, hk1, hk2, hk3, hk4⟩ := ih2 _ hmem
          have hkj : j ≠ k := fun he => hk2 (he ▸ Finset.mem_insert_self j used)
          exact nodup_map_getD_ne hdets hjlen hk3 hkj hk4.symm
        · intro t ht
          rcases List.mem_cons.mp ht with ht | ht
          · exact ⟨j, hsub (Finset.mem_insert_self j used), hjused, hjlen, ht.symm⟩
          · obtain ⟨k, hk1, hk2, hk3, hk4⟩ := ih2 t ht
            exact ⟨k, hk1, fun hk => hk2 (Finset.mem_insert_of_mem hk), hk3, hk4⟩
      · have hcons : nonnegIds ({ inst with track_id := some ((dets.getD j d0).track_id) } ::
            (processInsts m u dets rest (insert j used)
              { stats with matched_center := stats.matched_center + 1 }).1) =
            nonnegIds (processInsts m u dets rest (insert j used)
              { stats with matched_center := stats.matched_center + 1 }).1 := by
          simp only [nonnegIds, List.filterMap_cons, Option.some_bind]
          rw [if_neg ht0]
        rw [hcons]
        refine ⟨ih1, fun t ht => ?_⟩
        obtain ⟨k, hk1, hk2, hk3, hk4⟩ := ih2 t ht
        exact ⟨k, hk1, fun hk => hk2 (Finset.mem_insert_of_mem hk), hk3, hk4⟩

/-- Every output frame has pairwise-distinct non-negative ids, provided the
frame's candidate list carries pairwise-distinct ids. -/
lemma processFrames_nodup {α : Type} (bot : Int → List TrackCandidate) (m : ℚ) (u : Bool)
    (hdist : ∀ f : Int, ((bot f).map TrackCandidate.track_id).Nodup) :
    ∀ (kp : List (FrameEntry α)) (stats : Stats),
      ∀ e ∈ (processFrames bot m u kp stats).1, (nonnegIds e.instances).Nodup := by
  intro kp
  induction kp with
  | nil => intro stats e he; simp [processFrames] at he
  | cons f rest ih =>
    intro stats e he
    simp only [processFrames] at he
    rcases List.mem_cons.mp he with he | he
    · subst he
      exact (processInsts_nodup m u (bot f.frame_id) (hdist f.frame_id)
        f.instances ∅ stats).1
    · exact ih _ e he

/-- The outer loop only writes `track_id` fields: frame ids, frame order,
instance order and all other instance fields survive. -/
lemma processFrames_strip {α : Type} (bot : Int → List TrackCandidate) (m : ℚ) (u : Bool) :
    ∀ (kp : List (FrameEntry α)) (stats : Stats),
      (processFrames bot m u kp stats).1.map stripTid = kp.map stripTid := by
  intro kp
  induction kp with
  | nil => intro stats; rfl
  | cons f rest ih =>
    intro stats
    simp only [processFrames, List.map_cons]
    rw [ih]
    congr 1
    simp only [stripTid]
    rw [processInsts_strip]

/-! Claim theorems. -/

/-- C1: in every run of `assign_track_ids`, each detection step increments
exactly one of the three counters, and at the end
`matched_iou + matched_center + no_candidate` equals the total number of
detection instances processed. -/
theorem C1_counters_partition :
    (∀ (α : Type) (m : ℚ) (u : Bool) (dets : List TrackCandidate) (used : Finset ℕ)
        (stats : Stats) (inst : DetectionInstance α),
        (stepInst m u dets used stats inst).2.2 =
            { stats with no_candidate := stats.no_candidate + 1 } ∨
        (stepInst m u dets used stats inst).2.2 =
            { stats with matched_iou := stats.matched_iou + 1 } ∨
        (stepInst m u dets used stats inst).2.2 =
            { stats with matched_center := stats.matched_center + 1 })
    ∧ ∀ (α : Type) (kp : List (FrameEntry α)) (bot : Int → List TrackCandidate)
        (m : ℚ) (u : Bool),
        ((assign_track_ids kp bot m u).2).total = totalInstances kp := by
  constructor
  · intro α m u dets used stats inst
    rcases stepInst_main m u dets used stats inst with h | ⟨j, _, _, h | h⟩
    · exact Or.inl (by rw [h])
    · exact Or.inr (Or.inl (by rw [h]))
    · exact Or.inr (Or.inr (by rw [h]))
  · intro α kp bot m u
    have h := processFrames_total bot m u kp ⟨0, 0, 0⟩
    simpa [assign_track_ids, Stats.total] using h

/-- One frame, two detections on disjoint boxes, and a candidate list that
repeats `track_id` 7 on two different candidates. -/
def kpC2 : List (FrameEntry ℕ) :=
  [⟨1, [⟨some [0, 0, 10, 10], 0, none⟩, ⟨some [100, 100, 110, 110], 1, none⟩]⟩]

/-- Candidate table for the C2 counterexample (duplicate id 7 in frame 1). -/
def botC2 : Int → List TrackCandidate :=
  fun f => if f = 1 then [⟨7, (0, 0, 10, 10)⟩, ⟨7, (100, 100, 110, 110)⟩] else []

/-- C2 is false as stated: nothing stops one frame's candidate list from
repeating a `track_id`, and then two detections of the same frame both
receive the same non-negative id (here both get 7). -/
theorem C2_counterexample :
    (assign_track_ids kpC2 botC2 0 false).1.map
        (fun e => e.instances.map (fun i => i.track_id)) = [[some 7, some 7]]
      ∧ (0 : Int) ≤ 7 := by
  constructor
  · with_unfolding_all decide
  · decide

/-- C2 (amended): consuming a candidate removes its index from
eligibility, so assignments are 1:1 on candidates; hence whenever the
candidates of every frame carry pairwise-distinct `track_id`s, no two
detections within one frame are assigned the same non-negative id. -/
theorem C2_distinct_ids {α : Type} (kp : List (FrameEntry α))
    (bot : Int → List TrackCandidate) (m : ℚ) (u : Bool)
    (hdist : ∀ f : Int, ((bot f).map TrackCandidate.track_id).Nodup) :
    ∀ e ∈ (assign_track_ids kp bot m u).1, (nonnegIds e.instances).Nodup :=
  processFrames_nodup bot m u hdist kp ⟨0, 0, 0⟩

/-- Candidate table with distinct ids per frame, for the C2 witness. -/
def botW2 : Int → List TrackCandidate :=
  fun f => if f = 1 then [⟨1, (0, 0, 10, 10)⟩, ⟨2, (100, 100, 110, 110)⟩] else []

/-- Witness instantiating the amended C2 at a concrete run. -/
theorem C2_distinct_ids_witness :
    (∀ f : Int, ((botW2 f).map TrackCandidate.track_id).Nodup) ∧
    ∀ e ∈ (assign_track_ids kpC2 botW2 0 false).1, (nonnegIds e.instances).Nodup := by
  have hd : ∀ f : Int, ((botW2 f).map TrackCandidate.track_id).Nodup := by
    intro f
    unfold botW2
    split <;> decide
  exact ⟨hd, C2_distinct_ids kpC2 botW2 0 false hd⟩

/-- C6: IoU of a positive-area box with itself is 1; IoU of boxes whose
intersection is empty on some axis is 0; IoU against a degenerate box is 0
in both argument orders; and with non-positive union area the function
returns 0 instead of faulting (it is total by construction). -/
theorem C6_iou_props :
    (∀ x1 y1 x2 y2 : ℚ, x1 < x2 → y1 < y2 →
        iou_xyxy (x1, y1, x2, y2) (x1, y1, x2, y2) = 1)
  ∧ (∀ ax1 ay1 ax2 ay2 bx1 by1 bx2 by2 : ℚ,
        min ax2 bx2 ≤ max ax1 bx1 ∨ min ay2 by2 ≤ max ay1 by1 →
        iou_xyxy (ax1, ay1, ax2, ay2) (bx1, by1, bx2, by2) = 0)
  ∧ (∀ ax1 ay1 ax2 ay2 bx1 by1 bx2 by2 : ℚ, ax2 ≤ ax1 ∨ ay2 ≤ ay1 →
        iou_xyxy (ax1, ay1, ax2, ay2) (bx1, by1, bx2, by2) = 0 ∧
        iou_xyxy (bx1, by1, bx2, by2) (ax1, ay1, ax2, ay2) = 0)
  ∧ ∀ ax1 ay1 ax2 ay2 bx1 by1 bx2 by2 : ℚ,
        max 0 (ax2 - ax1) * max 0 (ay2 - ay1) + max 0 (bx2 - bx1) * max 0 (by2 - by1)
          - max 0 (min ax2 bx2 - max ax1 bx1) * max 0 (min ay2 by2 - max ay1 by1) ≤ 0 →
        iou_xyxy (ax1, ay1, ax2, ay2) (bx1, by1, bx2, by2) = 0 :=
  ⟨iou_self_eq_one, iou_disjoint_eq_zero, iou_degenerate_eq_zero, iou_denom_nonpos_eq_zero⟩

/-- Witness instantiating C6 at concrete rectangles. -/
theorem C6_iou_props_witness :
    iou_xyxy (0, 0, 10, 10) (0, 0, 10, 10) = 1 ∧
    iou_xyxy (0, 0, 10, 10) (20, 20, 30, 30) = 0 ∧
    iou_xyxy (5, 5, 5, 9) (0, 0, 10, 10) = 0 ∧
    iou_xyxy (0, 0, 0, 0) (1, 1, 1, 1) = 0 :=
  ⟨C6_iou_props.1 0 0 10 10 (by norm_num) (by norm_num),
   C6_iou_props.2.1 0 0 10 10 20 20 30 30 (Or.inl (by with_unfolding_all decide)),
   (C6_iou_props.2.2.1 5 5 5 9 0 0 10 10 (Or.inl (by norm_num))).1,
   C6_iou_props.2.2.2 0 0 0 0 1 1 1 1 (by with_unfolding_all decide)⟩

/-- C7: a detection without a usable four-number box (missing or
wrong-length `bbox`) is resolved non-fatally: sentinel `track_id = -1`,
`no_candidate` incremented, the consumed set untouched, and the loop
continues over the remaining detections exactly as it would from there. -/
theorem C7_missing_bbox {α : Type} (m : ℚ) (u : Bool) (dets : List TrackCandidate)
    (used : Finset ℕ) (stats : Stats) (inst : DetectionInstance α)
    (rest : List (DetectionInstance α))
    (h : inst.bbox = none ∨ ∃ l, inst.bbox = some l ∧ l.length ≠ 4) :
    processInsts m u dets (inst :: rest) used stats =
      (({ inst with track_id := some (-1) }) ::
          (processInsts m u dets rest used
            { stats with no_candidate := stats.no_candidate + 1 }).1,
       (processInsts m u dets rest used
          { stats with no_candidate := stats.no_candidate + 1 }).2.1,
       (processInsts m u dets rest used
          { stats with no_candidate := stats.no_candidate + 1 }).2.2) := by
  have hstep : stepInst m u dets used stats inst =
      ({ inst with track_id := some (-1) }, used,
       { stats with no_candidate := stats.no_candidate + 1 }) := by
    rcases h with h | ⟨l, hl, hlen⟩
    · simp [stepInst, h]
    · simp only [stepInst, hl]
      rw [if_pos (Or.inl hlen)]
  simp only [processInsts, hstep]

/-- Witness instantiating C7 at a concrete malformed detection. -/
theorem C7_missing_bbox_witness :
    processInsts 0 false [⟨5, (0, 0, 10, 10)⟩]
        [(⟨none, 0, none⟩ : DetectionInstance ℕ)] ∅ ⟨0, 0, 0⟩ =
      ([⟨none, 0, some (-1)⟩], ∅, ⟨0, 0, 1⟩) := by
  rw [@C7_missing_bbox ℕ 0 false [⟨5, (0, 0, 10, 10)⟩] ∅ ⟨0, 0, 0⟩
    ⟨none, 0, none⟩ [] (Or.inl rfl)]
  rfl

/-- C8: the run rewrites only `track_id`: erasing that one field from every
output instance gives back exactly the input collection, so frame order,
frame ids, instance order, bboxes and the opaque attribute payloads all
survive unchanged. -/
theorem C8_preserves_all_but_tid {α : Type} (kp : List (FrameEntry α))
    (bot : Int → List TrackCandidate) (m : ℚ) (u : Bool) :
    (assign_track_ids kp bot m u).1.map stripTid = kp.map stripTid :=
  processFrames_strip bot m u kp ⟨0, 0, 0⟩

/-- The only use of `min_iou` is through `max(0.0, min_iou)`, so two floors
with the same clamped value give identical steps. -/
lemma stepInst_clamp {α : Type} (m m' : ℚ) (h : max 0 m = max 0 m') (u : Bool)
    (dets : List TrackCandidate) (used : Finset ℕ) (stats : Stats)
    (inst : DetectionInstance α) :
    stepInst m u dets used stats inst = stepInst m' u dets used stats inst := by
  cases hb : inst.bbox with
  | none => simp [stepInst, hb]
  | some l => simp only [stepInst, hb, h]

/-- Clamping lifted through the inner loop. -/
lemma processInsts_clamp {α : Type} (m m' : ℚ) (h : max 0 m = max 0 m') (u : Bool)
    (dets : List TrackCandidate) :
    ∀ (insts : List (DetectionInstance α)) (used : Finset ℕ) (stats : Stats),
      processInsts m u dets insts used stats = processInsts m' u dets insts used stats := by
  intro insts
  induction insts with
  | nil => intro used stats; rfl
  | cons inst rest ih =>
    intro used stats
    simp only [processInsts, stepInst_clamp m m' h u dets used stats inst, ih]

/-- Clamping lifted through the outer loop. -/
lemma processFrames_clamp {α : Type} (m m' : ℚ) (h : max 0 m = max 0 m')
    (bot : Int → List TrackCandidate) (u : Bool) :
    ∀ (kp : List (FrameEntry α)) (stats : Stats),
      processFrames bot m u kp stats = processFrames bot m' u kp stats := by
  intro kp
  induction kp with
  | nil => intro stats; rfl
  | cons e rest ih =>
    intro stats
    simp only [processFrames, processInsts_clamp m m' h u, ih]

/-- C9: a negative acceptance floor is clamped: running with any
`min_iou < 0` produces exactly the same assignments and counters as
running with `min_iou = 0`. -/
theorem C9_negative_min_iou_clamped {α : Type} (kp : List (FrameEntry α))
    (bot : Int → List TrackCandidate) (u : Bool) (m : ℚ) (hm : m < 0) :
    assign_track_ids kp bot m u = assign_track_ids kp bot 0 u := by
  unfold assign_track_ids
  rw [processFrames_clamp m 0 (by rw [max_eq_left (le_of_lt hm)]; simp) bot u kp ⟨0, 0, 0⟩]

/-- Input for the C9 witness. -/
def kpC9 : List (FrameEntry ℕ) := [⟨1, [⟨some [0, 0, 10, 10], 0, none⟩]⟩]

/-- Candidate table for the C9 witness. -/
def botC9 : Int → List TrackCandidate :=
  fun f => if f = 1 then [⟨5, (0, 0, 10, 10)⟩] else []

/-- Witness instantiating C9 at a concrete run with `min_iou = -1`. -/
theorem C9_negative_min_iou_clamped_witness :
    ((-1 : ℚ) < 0) ∧ assign_track_ids kpC9 botC9 (-1) false = assign_track_ids kpC9 botC9 0 false :=
  ⟨by norm_num, C9_negative_min_iou_clamped kpC9 botC9 false (-1) (by norm_num)⟩

/-- When phase 1 does not accept, `matched_iou` is untouched. -/
lemma stepInst_p1fail {α : Type} (m : ℚ) (u : Bool) (dets : List TrackCandidate)
    (used : Finset ℕ) (stats : Stats) (inst : DetectionInstance α) (l : List ℚ)
    (hb : inst.bbox = some l) (hl : l.length = 4) (hd : dets ≠ [])
    (hcond : ¬((phase1 (toRect l) dets used).2 ≠ -1 ∧
        (phase1 (toRect l) dets used).1 ≥ max 0 m)) :
    (stepInst m u dets used stats inst).2.2.matched_iou = stats.matched_iou := by
  rw [stepInst_good m u dets used stats inst l hb hl hd, if_neg hcond]
  split
  · split <;> rfl
  · rfl

/-- C3: for a detection with a usable box and at least one unconsumed
candidate, phase 1 selects the unconsumed candidate of maximal IoU — on
ties the first in candidate-list order — that IoU is never below 0, and
the candidate is assigned (id copied, index consumed, `matched_iou`
incremented) if and only if its IoU is at least `min_iou`; in particular
the default floor 0 always accepts the best candidate. -/
theorem C3_phase1_argmax {α : Type} (m : ℚ) (u : Bool) (dets : List TrackCandidate)
    (used : Finset ℕ) (stats : Stats) (inst : DetectionInstance α) (l : List ℚ)
    (hb : inst.bbox = some l) (hl : l.length = 4)
    (k0 : ℕ) (hk0 : k0 < dets.length) (hku : k0 ∉ used) :
    ∃ j : ℕ, j < dets.length ∧ j ∉ used
      ∧ (phase1 (toRect l) dets used).2 = (j : Int)
      ∧ (phase1 (toRect l) dets used).1 = iouAt (toRect l) dets j
      ∧ 0 ≤ (phase1 (toRect l) dets used).1
      ∧ (∀ k, k < dets.length → k ∉ used →
          iouAt (toRect l) dets k ≤ (phase1 (toRect l) dets used).1)
      ∧ (∀ k, k < j → k ∉ used →
          iouAt (toRect l) dets k < (phase1 (toRect l) dets used).1)
      ∧ (stepInst m u dets used stats inst =
            ({ inst with track_id := some ((dets.getD j d0).track_id) }, insert j used,
             { stats with matched_iou := stats.matched_iou + 1 })
         ↔ m ≤ (phase1 (toRect l) dets used).1) := by
  have hd : dets ≠ [] := List.length_pos.mp (by omega)
  obtain ⟨j, hj1, hj2, hj3, hj4, hj5, hj6⟩ := phase1_pos (toRect l) dets used k0 hk0 hku
  have h0 : 0 ≤ (phase1 (toRect l) dets used).1 := by
    rw [hj3]
    exact iou_xyxy_nonneg _ _
  refine ⟨j, hj1, hj2, hj4, hj3, h0, hj5, hj6, ?_⟩
  constructor
  · intro heq
    by_contra hm
    have hcond : ¬((phase1 (toRect l) dets used).2 ≠ -1 ∧
        (phase1 (toRect l) dets used).1 ≥ max 0 m) := by
      rintro ⟨h1, h2⟩
      exact hm (le_trans (le_max_right 0 m) h2)
    have hfail := stepInst_p1fail m u dets used stats inst l hb hl hd hcond
    rw [heq] at hfail
    exact Nat.succ_ne_self stats.matched_iou hfail
  · intro hm
    have hcond : (phase1 (toRect l) dets used).2 ≠ -1 ∧
        (phase1 (toRect l) dets used).1 ≥ max 0 m := by
      constructor
      · rw [hj4]; omega
      · exact max_le h0 hm
    rw [stepInst_good m u dets used stats inst l hb hl hd, if_pos hcond, hj4, Int.toNat_ofNat]

/-- Input for the C3 witness. -/
def detsC3 : List TrackCandidate := [⟨5, (0, 0, 10, 10)⟩]

/-- Witness instantiating C3: perfect overlap with the sole candidate is
assigned under the default floor. -/
theorem C3_phase1_argmax_witness :
    stepInst 0 false detsC3 ∅ ⟨0, 0, 0⟩
        (⟨some [0, 0, 10, 10], 0, none⟩ : DetectionInstance ℕ) =
      (⟨some [0, 0, 10, 10], 0, some 5⟩, insert 0 ∅, ⟨1, 0, 0⟩) := by
  obtain ⟨j, hj1, hj2, hj3, hj4, hj5, hj6, hj7, hiff⟩ :=
    @C3_phase1_argmax ℕ 0 false detsC3 ∅ ⟨0, 0, 0⟩ ⟨some [0, 0, 10, 10], 0, none⟩
      [0, 0, 10, 10] rfl rfl 0 (by decide) (by decide)
  have hj0 : j = 0 := by
    have : detsC3.length = 1 := rfl
    omega
  subst hj0
  rw [hiff.mpr hj5]
  with_unfolding_all decide

/-- C5: with the fallback disabled `matched_center` stays 0 for every run;
when phase 1 fails with the fallback enabled, the nearest (squared center
distance) unconsumed candidate is always assigned with no distance
threshold, while with no unconsumed candidate left the detection falls to
the sentinel; and when phase 1 does assign, the fallback is not entered
(`matched_center` untouched). -/
theorem C5_center_fallback :
    (∀ (α : Type) (kp : List (FrameEntry α)) (bot : Int → List TrackCandidate) (m : ℚ),
        (assign_track_ids kp bot m false).2.matched_center = 0)
  ∧ (∀ (α : Type) (m : ℚ) (dets : List TrackCandidate) (used : Finset ℕ) (stats : Stats)
      (inst : DetectionInstance α) (l : List ℚ),
      inst.bbox = some l → l.length = 4 →
      ¬((phase1 (toRect l) dets used).2 ≠ -1 ∧
          (phase1 (toRect l) dets used).1 ≥ max 0 m) →
      (∀ k0, k0 < dets.length → k0 ∉ used →
        ∃ j : ℕ, j < dets.length ∧ j ∉ used
          ∧ (phase2 (center_xyxy (toRect l)) dets used).2 = (j : Int)
          ∧ (∀ k, k < dets.length → k ∉ used →
              d2At (center_xyxy (toRect l)) dets j ≤ d2At (center_xyxy (toRect l)) dets k)
          ∧ stepInst m true dets used stats inst =
              ({ inst with track_id := some ((dets.getD j d0).track_id) }, insert j used,
               { stats with matched_center := stats.matched_center + 1 }))
      ∧ ((∀ k, k < dets.length → k ∈ used) →
          stepInst m true dets used stats inst =
            ({ inst with track_id := some (-1) }, used,
             { stats with no_candidate := stats.no_candidate + 1 })))
  ∧ ∀ (α : Type) (m : ℚ) (u : Bool) (dets : List TrackCandidate) (used : Finset ℕ)
      (stats : Stats) (inst : DetectionInstance α) (l : List ℚ),
      inst.bbox = some l → l.length = 4 → dets ≠ [] →
      ((phase1 (toRect l) dets used).2 ≠ -1 ∧
          (phase1 (toRect l) dets used).1 ≥ max 0 m) →
      (stepInst m u dets used stats inst).2.2.matched_center = stats.matched_center := by
  refine ⟨?_, ?_, ?_⟩
  · intro α kp bot m
    have h := processFrames_center_const bot m kp ⟨0, 0, 0⟩
    simpa [assign_track_ids] using h
  · intro α m dets used stats inst l hb hl hp1
    constructor
    · intro k0 hk0 hku
      have hd : dets ≠ [] := List.length_pos.mp (by omega)
      obtain ⟨j, hj1, hj2, hj3, hj4, hj5, hj6⟩ := phase2_pos (center_xyxy (toRect l)) dets used k0 hk0 hku
      refine ⟨j, hj1, hj2, hj4, fun k hk hk2 => hj5 k hk hk2, ?_⟩
      rw [stepInst_good m true dets used stats inst l hb hl hd, if_neg hp1,
        if_pos (⟨rfl, hd⟩ : (true : Bool) ∧ dets ≠ []), if_pos (by rw [hj4]; omega :
          (phase2 (center_xyxy (toRect l)) dets used).2 ≠ -1), hj4, Int.toNat_ofNat]
    · intro hall
      by_cases hd : dets = []
      · simp only [stepInst, hb]
        rw [if_pos (Or.inr hd)]
      · have hneg : (phase2 (center_xyxy (toRect l)) dets used).2 = -1 :=
          (phase2_neg_iff (center_xyxy (toRect l)) dets used).mpr hall
        rw [stepInst_good m true dets used stats inst l hb hl hd, if_neg hp1,
          if_pos (⟨rfl, hd⟩ : (true : Bool) ∧ dets ≠ []), if_neg (by rw [hneg]; omega :
            ¬((phase2 (center_xyxy (toRect l)) dets used).2 ≠ -1))]
  · intro α m u dets used stats inst l hb hl hd hcond
    rw [stepInst_good m u dets used stats inst l hb hl hd, if_pos hcond]

/-- Input for the C5 witness. -/
def kpC5 : List (FrameEntry ℕ) := [⟨1, [⟨some [0, 0, 10, 10], 0, none⟩]⟩]

/-- Candidate table for the C5 witness. -/
def botC5 : Int → List TrackCandidate :=
  fun f => if f = 1 then [⟨9, (50, 50, 60, 60)⟩] else []

/-- Witness instantiating C5: fallback disabled keeps `matched_center = 0`;
fallback enabled rescues the zero-IoU detection with the far-away sole
candidate (the spec's example scenario, `min_iou = 1/2`). -/
theorem C5_center_fallback_witness :
    (assign_track_ids kpC5 botC5 (1/2) false).2.matched_center = 0 ∧
    stepInst (1/2) true [⟨9, (50, 50, 60, 60)⟩] ∅ ⟨0, 0, 0⟩
        (⟨some [0, 0, 10, 10], 0, none⟩ : DetectionInstance ℕ) =
      (⟨some [0, 0, 10, 10], 0, some 9⟩, insert 0 ∅, ⟨0, 1, 0⟩) := by
  constructor
  · exact C5_center_fallback.1 ℕ kpC5 botC5 (1/2)
  · obtain ⟨j, hj1, hj2, hj3, hj4, hj5⟩ :=
      (C5_center_fallback.2.1 ℕ (1/2) [⟨9, (50, 50, 60, 60)⟩] ∅ ⟨0, 0, 0⟩
        ⟨some [0, 0, 10, 10], 0, none⟩ [0, 0, 10, 10] rfl rfl
        (by with_unfolding_all decide)).1 0 (by decide) (by decide)
    have hj0 : j = 0 := by
      have : ([⟨9, (50, 50, 60, 60)⟩] : List TrackCandidate).length = 1 := rfl
      omega
    subst hj0
    rw [hj5]
    with_unfolding_all decide

/-- C10: when the fallback runs, equal squared center distances are
resolved in favor of the earliest candidate index: the kept index beats
every earlier unconsumed index strictly, so a later candidate at the same
distance never displaces an earlier one, and the winner is assigned. -/
theorem C10_phase2_stable {α : Type} (m : ℚ) (dets : List TrackCandidate)
    (used : Finset ℕ) (stats : Stats) (inst : DetectionInstance α) (l : List ℚ)
    (hb : inst.bbox = some l) (hl : l.length = 4)
    (hp1 : ¬((phase1 (toRect l) dets used).2 ≠ -1 ∧
        (phase1 (toRect l) dets used).1 ≥ max 0 m))
    (k0 : ℕ) (hk0 : k0 < dets.length) (hku : k0 ∉ used) :
    ∃ j : ℕ, (phase2 (center_xyxy (toRect l)) dets used).2 = (j : Int)
      ∧ j < dets.length ∧ j ∉ used
      ∧ (∀ k, k < j → k ∉ used →
          d2At (center_xyxy (toRect l)) dets j < d2At (center_xyxy (toRect l)) dets k)
      ∧ (∀ k, k < dets.length → k ∉ used →
          d2At (center_xyxy (toRect l)) dets k = d2At (center_xyxy (toRect l)) dets j → j ≤ k)
      ∧ stepInst m true dets used stats inst =
          ({ inst with track_id := some ((dets.getD j d0).track_id) }, insert j used,
           { stats with matched_center := stats.matched_center + 1 }) := by
  have hd : dets ≠ [] := List.length_pos.mp (by omega)
  obtain ⟨j, hj1, hj2, hj3, hj4, hj5, hj6⟩ := phase2_pos (center_xyxy (toRect l)) dets used k0 hk0 hku
  refine ⟨j, hj4, hj1, hj2, hj6, ?_, ?_⟩
  · intro k hk hk2 heq
    by_contra hlt
    have := hj6 k (by omega) hk2
    rw [heq] at this
    exact lt_irrefl _ this
  · rw [stepInst_good m true dets used stats inst l hb hl hd, if_neg hp1,
      if_pos (⟨rfl, hd⟩ : (true : Bool) ∧ dets ≠ []), if_pos (by rw [hj4]; omega :
        (phase2 (center_xyxy (toRect l)) dets used).2 ≠ -1), hj4, Int.toNat_ofNat]

/-- Candidate table for the C10 witness: two candidates at the same squared
center distance (400) from the detection's center `(5, 5)`. -/
def detsC10 : List TrackCandidate := [⟨8, (20, 0, 30, 10)⟩, ⟨9, (-20, 0, -10, 10)⟩]

/-- Witness instantiating C10 at an exact distance tie: the first-listed
candidate (id 8) wins. -/
theorem C10_phase2_stable_witness :
    stepInst (1/2) true detsC10 ∅ ⟨0, 0, 0⟩
        (⟨some [0, 0, 10, 10], 0, none⟩ : DetectionInstance ℕ) =
      (⟨some [0, 0, 10, 10], 0, some 8⟩, insert 0 ∅, ⟨0, 1, 0⟩) := by
  obtain ⟨j, hj1, hj2, hj3, hj4, hj5, hj6⟩ :=
    @C10_phase2_stable ℕ (1/2) detsC10 ∅ ⟨0, 0, 0⟩ ⟨some [0, 0, 10, 10], 0, none⟩
      [0, 0, 10, 10] rfl rfl (by with_unfolding_all decide) 0 (by decide) (by decide)
  have hj01 : j = 0 ∨ j = 1 := by
    have : detsC10.length = 2 := rfl
    omega
  rcases hj01 with hj0 | hj0
  · subst hj0
    rw [hj6]
    with_unfolding_all decide
  · exfalso
    subst hj0
    have := hj4 0 (by decide) (by decide)
    revert this
    with_unfolding_all decide

/-- A row of at least six fields with a non-numeric field among positions
0-5 fails to parse. -/
lemma parseRow_err (row : List (Option ℚ)) (h6 : 6 ≤ row.length)
    (h : ∃ i, i < 6 ∧ row.get? i = some none) :
    parseRow row = .error "FormatError" := by
  rcases row with _ | ⟨a, _ | ⟨b, _ | ⟨c, _ | ⟨d, _ | ⟨e, _ | ⟨f, rest⟩⟩⟩⟩⟩⟩ <;>
    simp only [List.length_nil, List.length_cons] at h6 <;> try omega
  rcases a with _ | a <;> rcases b with _ | b <;> rcases c with _ | c <;>
    rcases d with _ | d <;> rcases e with _ | e <;> rcases f with _ | f <;>
    first
      | rfl
      | (exfalso
         obtain ⟨i, hi, hnone⟩ := h
         interval_cases i <;> simp [List.get?] at hnone)

/-- C4 (amended): loading fails fatally for every row of at least six
fields with a non-numeric field in positions 0-5 (such as the line
`"abc,1,2,3,4,5"`), while a row with fewer than six fields is silently
skipped — it never raises. -/
theorem C4_load_format_error :
    (∀ (rows : List (List (Option ℚ))) (row : List (Option ℚ)),
        row ∈ rows → 6 ≤ row.length → (∃ i, i < 6 ∧ row.get? i = some none) →
        ∃ e, load_botsort rows = .error e)
  ∧ (∀ (row : List (Option ℚ)) (rest : List (List (Option ℚ))), row.length < 6 →
        load_botsort (row :: rest) = load_botsort rest)
  ∧ load_botsort [[none, some 1, some 2, some 3, some 4, some 5]] = .error "FormatError" := by
  refine ⟨?_, ?_, ?_⟩
  · intro rows
    induction rows with
    | nil => intro row hmem _ _; exact absurd hmem (List.not_mem_nil row)
    | cons r rest ih =>
      intro row hmem h6 hbad
      rcases List.mem_cons.mp hmem with he | hmem'
      · subst he
        simp only [load_botsort]
        rw [if_neg (by omega), parseRow_err row h6 hbad]
        exact ⟨"FormatError", rfl⟩
      · obtain ⟨e, herr⟩ := ih row hmem' h6 hbad
        simp only [load_botsort]
        by_cases hlen : r.length < 6
        · rw [if_pos hlen]; exact ⟨e, herr⟩
        · rw [if_neg hlen]
          cases hp : parseRow r with
          | ok v =>
            rw [herr]
            exact ⟨e, rfl⟩
          | error e2 => exact ⟨e2, rfl⟩
  · intro row rest h
    simp only [load_botsort]
    rw [if_pos h]
  · with_unfolding_all rfl

/-- C4 is false as stated: a record with fewer than six fields does not
abort the load; it is skipped and the load of only that record succeeds
with an empty table. -/
theorem C4_counterexample :
    load_botsort [[some 1, some 2, some 3, some 4, some 5]] = .ok [] := by
  with_unfolding_all rfl

/-- Witness instantiating C4: a six-field row with a non-numeric lead
field kills the load, and a five-field row is skipped. -/
theorem C4_load_format_error_witness :
    (∃ e, load_botsort [[none, some 1, some 2, some 3, some 4, some 5]] = .error e)
    ∧ load_botsort [([some 1, some 2, some 3, some 4, some 5] : List (Option ℚ))]
        = load_botsort [] := by
  constructor
  · exact C4_load_format_error.1 _ _ (List.mem_singleton.mpr rfl) (by decide)
      ⟨0, by omega, rfl⟩
  · exact C4_load_format_error.2.1 _ [] (by decide)
